import Mathlib

/-!
Verification development for the rust-patch-monitor repository
(`src/rust_patch_monitor.py`).  The Python source is shallowly embedded:
strings are `List Char` (Python `str` is a sequence of code points), machine
integers are `Nat`/`Int`, timestamps are seconds since an epoch, and the
fallible network boundary is passed in as explicit function arguments.
Each definition carries a comment pointing at the Python construct it embeds.
-/

set_option maxHeartbeats 1000000

/-! ## Python string primitives (ASCII fragment used by the source) -/

/-- Embeds Python `str.lower` for the ASCII range (all comparison tokens in
the source are ASCII). -/
def lowerChar (c : Char) : Char :=
  if 'A' ≤ c ∧ c ≤ 'Z' then Char.ofNat (c.toNat + 32) else c

/-- `str.lower` over a whole string. -/
def lowerStr (s : List Char) : List Char := s.map lowerChar

/-- The six characters Python `str.strip` removes. -/
def isPySpace (c : Char) : Bool :=
  c == ' ' || c == '\t' || c == '\n' || c == '\r' ||
    c == Char.ofNat 11 || c == Char.ofNat 12

/-- Leading-whitespace removal, half of `str.strip`. -/
def stripLeft (s : List Char) : List Char := s.dropWhile isPySpace

/-- Trailing-whitespace removal, the other half of `str.strip`. -/
def stripRight (s : List Char) : List Char := (s.reverse.dropWhile isPySpace).reverse

/-- Embeds Python `str.strip()`. -/
def pyStrip (s : List Char) : List Char := stripRight (stripLeft s)

/-- `hasPfx pat s` embeds Python `s.startswith(pat)`. -/
def hasPfx : List Char → List Char → Bool
  | [], _ => true
  | _ :: _, [] => false
  | p :: ps, c :: cs => p == c && hasPfx ps cs

/-- `hasSub pat s` embeds the Python substring test `pat in s`. -/
def hasSub (pat : List Char) : List Char → Bool
  | [] => hasPfx pat []
  | c :: cs => hasPfx pat (c :: cs) || hasSub pat cs

/-! ## SeriesStateClassifier (`PatchworkClient._is_series_applied`) -/

/-- One entry of the inline patch list a series record carries
(`series_data["patches"]`): the `name` and optional `state` fields the
classifier reads. `state = none` models a missing/None field. -/
structure InlinePatch where
  name : List Char
  state : Option (List Char)
deriving DecidableEq

/-- The `applied_states` literal of `_is_series_applied`. -/
def appliedStates : List (List Char) :=
  ["accepted".toList, "committed".toList, "superseded".toList]

/-- `patch.get("state")` followed by the truthiness test `if state:` and
`state.lower()`: `None` and the empty string contribute nothing. -/
def stateOf (p : InlinePatch) : Option (List Char) :=
  match p.state with
  | none => none
  | some s => if s = [] then none else some (lowerStr s)

/-- The pull-request title rule of `_is_series_applied`:
`"[git,pull]" in patch_name or "git pull" in patch_name` on the lowercased
first patch name. -/
def pullTitle (name : List Char) : Bool :=
  hasSub "[git,pull]".toList (lowerStr name) || hasSub "git pull".toList (lowerStr name)

/-- Embeds `_is_series_applied`.  The Python majority test
`applied_count > len(states) * 0.5` is on small integers against the exactly
representable float `0.5`, hence equal to `2 * applied_count > len(states)`. -/
def isSeriesApplied (patches : List InlinePatch) : Bool :=
  match patches with
  | [] => false
  | first :: _ =>
    if pullTitle first.name then true
    else
      let states := (patches.take 3).filterMap stateOf
      if states.isEmpty then false
      else decide (2 * states.countP (fun s => appliedStates.contains s) > states.length)

/-! ## Version inference (`_analyze_engagement`, regex `\[?v(\d+)\]?`) -/

/-- Digit-string to number, as Python `int()` on the captured group. -/
def digitsToNat (ds : List Char) : Nat := ds.foldl (fun n c => 10 * n + (c.toNat - 48)) 0

/-- A case-insensitive `v` immediately followed by a digit starts here. -/
def vDigitHere (s : List Char) : Bool :=
  match s with
  | c :: d :: _ => lowerChar c == 'v' && d.isDigit
  | _ => false

/-- Whether the pattern `\[?v(\d+)\]?` matches starting at this position:
the greedy optional `\[` consumes a leading bracket when it is followed by
`v` + digit; otherwise the position itself must carry `v` + digit. -/
def vMatchHere (s : List Char) : Bool :=
  match s with
  | [] => false
  | c :: t => if c == '[' then vDigitHere t else vDigitHere (c :: t)

/-- The digits captured by group 1 of a match starting at this position
(the maximal digit run after the `v`). -/
def vCapture (s : List Char) : Nat :=
  match s with
  | [] => 0
  | c :: t =>
    if c == '[' then digitsToNat ((t.drop 1).takeWhile Char.isDigit)
    else digitsToNat (t.takeWhile Char.isDigit)

/-- Embeds `re.search(r"\[?v(\d+)\]?", name, re.IGNORECASE)`: leftmost match,
returning the captured digits as a number. -/
def reSearchV : List Char → Option Nat
  | [] => none
  | c :: t => if vMatchHere (c :: t) then some (vCapture (c :: t)) else reSearchV t

/-- Embeds the version inference of `_analyze_engagement`:
`int(match.group(1)) if match else 1`. -/
def inferVersion (name : List Char) : Nat := (reSearchV name).getD 1

/-- The first occurrence, scanning left to right, of a case-insensitive `v`
immediately followed by a digit — with no boundary requirement — and the
value of the digit run after it.  Used to characterise `reSearchV`. -/
def firstVDigits : List Char → Option Nat
  | [] => none
  | c :: t =>
    if vDigitHere (c :: t) then some (digitsToNat (t.takeWhile Char.isDigit))
    else firstVDigits t

/-- Whether position `i` of `s` is preceded by a non-letter or is the start
of the string. -/
def boundaryOk (s : List Char) (i : Nat) : Bool :=
  match i with
  | 0 => true
  | Nat.succ j =>
    match s.get? j with
    | some c => !c.isAlpha
    | none => true

def specSearchVAux (orig : List Char) : List Char → Nat → Option Nat
  | [], _ => none
  | c :: t, i =>
    if vDigitHere (c :: t) && boundaryOk orig i then
      some (digitsToNat (t.takeWhile Char.isDigit))
    else specSearchVAux orig t (i + 1)

/-- Modelled from the spec sentence of C2 (for comparison only): take the
first `v` + digits token whose `v` is preceded by a non-letter boundary or
the start of the string; default to 1. -/
def specInferVersion (s : List Char) : Nat := (specSearchVAux s s 0).getD 1

/-! ## EndorsementParser (`ClaudeAnalyzer._extract_name_from_line` and the
endorsement scan of `_analyze_engagement`) -/

/-- Embeds Python `line.find(":")`, as the index of the first colon
(`none` for Python's `-1`). -/
def findColon : List Char → Option Nat
  | [] => none
  | c :: t => if c == ':' then some 0 else (findColon t).map (· + 1)

/-- Whether the pattern `<[^>]+>` matches starting at this position: a `<`,
then at least one non-`>` character, then a `>`.  Equivalently: the next
character exists, differs from `>`, and some `>` occurs after it. -/
def markerHere (s : List Char) : Bool :=
  match s with
  | a :: c :: t => a == '<' && c != '>' && t.contains '>'
  | _ => false

/-- Embeds `re.search(r"<[^>]+>", name_part)`: index of the leftmost match
start, if any. -/
def findMarker : List Char → Option Nat
  | [] => none
  | c :: t => if markerHere (c :: t) then some 0 else (findMarker t).map (· + 1)

/-- Embeds `_extract_name_from_line`: everything after the first colon,
stripped; if an angle-bracket email marker occurs in that field, the stripped
prefix before the leftmost marker; empty result when the line has no colon. -/
def pyExtractName (line : List Char) : List Char :=
  match findColon line with
  | none => []
  | some i =>
    let namePart := pyStrip (line.drop (i + 1))
    match findMarker namePart with
    | none => namePart
    | some q => pyStrip (namePart.take q)

/-- The four deduplicated endorsement name lists accumulated by
`_analyze_engagement`. -/
structure Endorsements where
  signed_off_by : List (List Char)
  acked_by : List (List Char)
  reviewed_by : List (List Char)
  tested_by : List (List Char)
deriving DecidableEq

def emptyEndorsements : Endorsements := ⟨[], [], [], []⟩

/-- Embeds the guarded append `if name and name not in …: ….append(name)`. -/
def addName (name : List Char) (l : List (List Char)) : List (List Char) :=
  if name.isEmpty || l.contains name then l else l ++ [name]

/-- Embeds one iteration of the endorsement line scan: strip the line, test
the lowercased line against the four labels, and on a match add the extracted
name to the corresponding list. -/
def processLine (e : Endorsements) (rawLine : List Char) : Endorsements :=
  let line := pyStrip rawLine
  let low := lowerStr line
  if hasPfx "signed-off-by:".toList low then
    { e with signed_off_by := addName (pyExtractName line) e.signed_off_by }
  else if hasPfx "acked-by:".toList low then
    { e with acked_by := addName (pyExtractName line) e.acked_by }
  else if hasPfx "reviewed-by:".toList low then
    { e with reviewed_by := addName (pyExtractName line) e.reviewed_by }
  else if hasPfx "tested-by:".toList low then
    { e with tested_by := addName (pyExtractName line) e.tested_by }
  else e

/-- Embeds Python `content.split("\n")`: split on every newline, keeping
empty pieces (`"".split("\n") == [""]`). -/
def splitNl (s : List Char) : List (List Char) :=
  match s with
  | [] => [[]]
  | c :: t =>
    if c = '\n' then [] :: splitNl t
    else
      match splitNl t with
      | [] => [[c]]
      | l :: ls => (c :: l) :: ls

/-- Embeds the nested loop `for patch in patches: for line in
patch.content.split("\n")` of `_analyze_engagement`, over the patch
contents. -/
def extractEndorsements (contents : List (List Char)) : Endorsements :=
  contents.foldl
    (fun e content => (splitNl content).foldl processLine e)
    emptyEndorsements

/-! ## Engagement XML rendering for endorsements (`analyze_patchset`) -/

/-- The value interpolated into the `count="…"` attribute:
`len(engagement_data['endorsements'][kind])`. -/
def countAttr (names : List (List Char)) : Nat := names.length

/-- The names interpolated into the element body: `[:5]` of the list. -/
def shownNames (names : List (List Char)) : List (List Char) := names.take 5

/-- One endorsement element of the engagement XML:
`<tag count="len(list)">', '.join(list[:5])</tag>`. -/
def endorsementLine (tag : String) (names : List (List Char)) : String :=
  "      <" ++ tag ++ " count=\"" ++ toString (countAttr names) ++ "\">" ++
    String.intercalate ", " ((shownNames names).map (fun n => String.mk n)) ++
    "</" ++ tag ++ ">"

/-- The four endorsement lines of the `<endorsements>` block, in source
order. -/
def endorsementsXml (e : Endorsements) : String :=
  String.intercalate "\n"
    [endorsementLine "signed_off_by" e.signed_off_by,
     endorsementLine "acked_by" e.acked_by,
     endorsementLine "reviewed_by" e.reviewed_by,
     endorsementLine "tested_by" e.tested_by]

/-! ## Timestamps (`datetime` fragment used by the source)

A Python `datetime` is embedded as a wall-clock reading in seconds plus an
optional UTC offset in seconds (`tz = none` models a naive datetime).  ISO
parsing (`datetime.fromisoformat`) is abstracted to its result: a comment
carries the parsed value, `none` when parsing would raise. -/

structure PyDateTime where
  wall : Int
  tz : Option Int
deriving DecidableEq

/-- The instant an aware datetime denotes (wall clock minus offset).  Only
meaningful when `tz` is `some`. -/
def instantOf (d : PyDateTime) : Int := d.wall - d.tz.getD 0

/-- Embeds `d.replace(tzinfo=timezone.utc) if d.tzinfo is None else d`
followed by taking the instant: a naive wall clock is assumed to already be
UTC. -/
def assumeUTC (d : PyDateTime) : Int :=
  match d.tz with
  | none => d.wall
  | some z => d.wall - z

/-- Embeds Python `timedelta.days` of a difference of `seconds`: floor
division by 86400. -/
def pyDays (seconds : Int) : Int := Int.fdiv seconds 86400

/-- Embeds the days-since-posting computation of `_analyze_engagement`
(`now` is the instant of `datetime.now(timezone.utc)`). -/
def daysSincePosting (now : Int) (d : PyDateTime) : Int := pyDays (now - assumeUTC d)

/-- Embeds Python `>` on two datetimes: wall-clock order on two naive
values, instant order on two aware values, and a `TypeError` (`none`) on a
mixed pair. -/
def dtGt (a b : PyDateTime) : Option Bool :=
  match a.tz, b.tz with
  | none, none => some (decide (b.wall < a.wall))
  | some _, some _ => some (decide (instantOf b < instantOf a))
  | _, _ => none

/-- One comment record returned by the tracker comment-listing call: the
fields read by `analyze_patchset`, with `cdate` the result of
`datetime.fromisoformat` on its date string (`none` when parsing raises). -/
structure PwComment where
  author : String
  dateStr : String
  content : String
  cdate : Option PyDateTime
deriving DecidableEq

/-- `awareComment c` holds when the parsed date of `c`, if any, carries an
explicit offset. -/
def awareComment (c : PwComment) : Bool :=
  match c.cdate with
  | none => true
  | some d => d.tz.isSome

/-- Embeds the `try: … if comment_date > most_recent_activity: …` body of
the activity loop: an unparsable date or a `TypeError` in the comparison is
swallowed and leaves the accumulator unchanged. -/
def updateActivity (acc : PyDateTime) (c : PwComment) : PyDateTime :=
  match c.cdate with
  | none => acc
  | some d =>
    match dtGt d acc with
    | some true => d
    | _ => acc

/-- One fetched patch (`Patch` dataclass): the fields `analyze_patchset`
reads. -/
structure CorePatch where
  id : Nat
  name : String
  content : String
deriving DecidableEq

/-- The activity loop of `analyze_patchset` over `patches[:max_patches]`,
folding every fetched comment of every inspected patch into the most recent
activity accumulator. -/
def mraLoop (f : Nat → List PwComment) : List CorePatch → PyDateTime → PyDateTime
  | [], acc => acc
  | p :: ps, acc => mraLoop f ps ((f p.id).foldl updateActivity acc)

/-- Embeds the `most_recent_activity` computation: starts from the series
date; the loop body runs only when `include_comments and client`. -/
def mostRecentActivity (seriesDate : PyDateTime) (includeComments : Bool)
    (client : Option (Nat → List PwComment)) (patches : List CorePatch)
    (maxPatches : Nat) : PyDateTime :=
  match includeComments, client with
  | true, some f => mraLoop f (patches.take maxPatches) seriesDate
  | _, _ => seriesDate

/-- Embeds `days_since_last_activity = (now - last_activity).days` with
`last_activity` the UTC-normalized most recent activity. -/
def daysSinceLastActivity (now : Int) (seriesDate : PyDateTime)
    (includeComments : Bool) (client : Option (Nat → List PwComment))
    (patches : List CorePatch) (maxPatches : Nat) : Int :=
  pyDays (now - assumeUTC (mostRecentActivity seriesDate includeComments client patches maxPatches))

/-- The instants of the parsed comment dates across the inspected patches,
in traversal order (claim-side expression for C5). -/
def commentInstants (f : Nat → List PwComment) (patches : List CorePatch)
    (maxPatches : Nat) : List Int :=
  (((patches.take maxPatches).map (fun p => f p.id)).flatten).filterMap
    (fun c => c.cdate.map instantOf)

/-- The later of the series submission instant and the latest comment
instant (claim-side expression for C5). -/
def latestInstant (sd : PyDateTime) (f : Nat → List PwComment)
    (patches : List CorePatch) (maxPatches : Nat) : Int :=
  (commentInstants f patches maxPatches).foldl max (instantOf sd)

/-! ## ContextAssembler (`analyze_patchset`, patch entry construction) -/

/-- The comment marker emitted when fetching is enabled but a patch has zero
comments. -/
def noCommentsMarker : String := "<!-- No comments found for this patch -->"

/-- The comment marker emitted when comment fetching is disabled. -/
def notFetchedMarker : String := "<!-- Comments not fetched (--no-comments flag used) -->"

/-- One rendered `<comment>` element: author, date truncated to 10
characters, body truncated to 1500 characters. -/
def commentXml (c : PwComment) : String :=
  "        <comment author=\"" ++ c.author ++ "\" date=\"" ++ c.dateStr.take 10 ++
    "\">\n" ++ c.content.take 1500 ++ "\n        </comment>"

/-- The three shapes the comments block of a patch entry can take, mirroring
the `if include_comments and client: / if comments: / else: / else:` branch
structure of `analyze_patchset`. -/
inductive CommentsSec where
  | fetched : List PwComment → CommentsSec
  | noneFound : CommentsSec
  | notFetched : CommentsSec
deriving DecidableEq

/-- Which comments block a patch entry receives: fetch only when
`include_comments and client`; a non-empty result keeps the first 3 comments,
an empty one yields the no-comments marker, and a disabled fetch yields the
not-fetched marker. -/
def commentsSecFor (includeComments : Bool) (client : Option (Nat → List PwComment))
    (pid : Nat) : CommentsSec :=
  match includeComments, client with
  | true, some f =>
    let cs := f pid
    if cs.isEmpty then CommentsSec.noneFound else CommentsSec.fetched (cs.take 3)
  | _, _ => CommentsSec.notFetched

/-- The text appended to a patch entry for its comments block, exactly as the
three string literals of `analyze_patchset`. -/
def renderCommentsSec : CommentsSec → String
  | CommentsSec.fetched cs =>
    "\n      <comments>\n" ++ String.intercalate "\n" (cs.map commentXml) ++
      "\n      </comments>"
  | CommentsSec.noneFound =>
    "\n      <comments>\n        " ++ noCommentsMarker ++ "\n      </comments>"
  | CommentsSec.notFetched =>
    "\n      <comments>\n        " ++ notFetchedMarker ++ "\n      </comments>"

/-- One assembled patch entry: header with 1-based id and name, truncated
content, the comments block, and the closing tag. -/
def patchEntry (i : Nat) (p : CorePatch) (maxChars : Nat) (sec : CommentsSec) : String :=
  "    <patch id=\"" ++ toString (i + 1) ++ "\" name=\"" ++ p.name ++
    "\">\n      <content>\n" ++ p.content.take maxChars ++ "\n      </content>" ++
    renderCommentsSec sec ++ "\n    </patch>"

/-- The comments blocks chosen for the inspected patches, in order. -/
def assembledSections (includeComments : Bool) (client : Option (Nat → List PwComment))
    (patches : List CorePatch) (maxPatches : Nat) : List CommentsSec :=
  (patches.take maxPatches).map (fun p => commentsSecFor includeComments client p.id)

/-- The assembled `patches_xml` list of `analyze_patchset`. -/
def assembledEntries (includeComments : Bool) (client : Option (Nat → List PwComment))
    (patches : List CorePatch) (maxPatches maxChars : Nat) : List String :=
  ((patches.take maxPatches).enum).map
    (fun pr => patchEntry pr.1 pr.2 maxChars (commentsSecFor includeComments client pr.2.id))

/-- `strContains pat s`: `pat` occurs contiguously in `s`. -/
def strContains (pat s : String) : Prop :=
  ∃ pre post, s.toList = pre ++ pat.toList ++ post

/-! ## BatchOrchestrator (`analyze_bulk`) and the text-generation boundary -/

/-- A series record as the batch loop sees it. -/
structure SeriesRec where
  id : Nat
  name : String
deriving DecidableEq

/-- The text-generation response: `response.content[0].text` plus the usage
receipt `response.usage` the API returns alongside it. -/
structure ApiResponse where
  text : String
  inputTokens : Nat
  outputTokens : Nat
deriving DecidableEq

/-- Embeds the return value of `ClaudeAnalyzer.analyze_patchset`: the method
returns `response.content[0].text` only — the usage receipt carried by the
response is dropped.  The generation call is abstracted as a function of the
series and its fetched patches. -/
def analyzePatchsetResult (gen : SeriesRec × List CorePatch → ApiResponse)
    (s : SeriesRec) (patches : List CorePatch) : String :=
  (gen (s, patches)).text

/-- One iteration of the `analyze_bulk` series loop: `fetch` yields the
patches that could be fetched for a series (patches failing individually are
already dropped inside the inner loop); a series with zero fetched patches is
recorded as a failure with reason `"No patches available"` and the loop
continues; otherwise the analysis result is recorded. -/
def processSeriesBulk (fetch : SeriesRec → List CorePatch)
    (gen : SeriesRec × List CorePatch → ApiResponse)
    (acc : List (SeriesRec × String) × List (SeriesRec × String))
    (s : SeriesRec) : List (SeriesRec × String) × List (SeriesRec × String) :=
  let patches := fetch s
  if patches.isEmpty then (acc.1, acc.2 ++ [(s, "No patches available")])
  else (acc.1 ++ [(s, analyzePatchsetResult gen s patches)], acc.2)

/-- Embeds the `analyze_bulk` loop over the selected series: the pair of
`analysis_results` (series with analysis text) and `failed_analyses`
(series with failure reason), in processing order. -/
def analyzeBulk (fetch : SeriesRec → List CorePatch)
    (gen : SeriesRec × List CorePatch → ApiResponse)
    (ss : List SeriesRec) : List (SeriesRec × String) × List (SeriesRec × String) :=
  ss.foldl (processSeriesBulk fetch gen) ([], [])

/-! ## Theorems -/

/-- Helper: the regex search for `\[?v(\d+)\]?` captures the digits after
the first `v`-followed-by-digit occurrence; the optional bracket branch never
changes the captured digits. -/
theorem reSearchV_eq_firstVDigits (s : List Char) : reSearchV s = firstVDigits s := by
  induction s with
  | nil => rfl
  | cons c t ih =>
    show (if vMatchHere (c :: t) then some (vCapture (c :: t)) else reSearchV t) = _
    by_cases hc : c = '['
    · subst hc
      have hvd : vDigitHere ('[' :: t) = false := by
        cases t with
        | nil => rfl
        | cons d u =>
          show (lowerChar '[' == 'v' && d.isDigit) = false
          rw [show (lowerChar '[' == 'v') = false from rfl, Bool.false_and]
      have hm : vMatchHere ('[' :: t) = vDigitHere t := rfl
      rw [hm]
      cases hvt : vDigitHere t with
      | false =>
        rw [if_neg (by simp)]
        rw [ih]
        show _ = (if vDigitHere ('[' :: t) then _ else firstVDigits t)
        rw [hvd]
        simp
      | true =>
        rw [if_pos rfl]
        cases t with
        | nil => simp [vDigitHere] at hvt
        | cons d u =>
          show some (vCapture ('[' :: d :: u)) = firstVDigits ('[' :: d :: u)
          have h1 : vCapture ('[' :: d :: u) = digitsToNat (u.takeWhile Char.isDigit) := rfl
          have h2 : firstVDigits ('[' :: d :: u) = firstVDigits (d :: u) := by
            show (if vDigitHere ('[' :: d :: u) then _ else firstVDigits (d :: u)) = _
            rw [hvd]
            simp
          have h3 : firstVDigits (d :: u) = some (digitsToNat (u.takeWhile Char.isDigit)) := by
            show (if vDigitHere (d :: u) then some (digitsToNat (u.takeWhile Char.isDigit))
                  else firstVDigits u) = _
            rw [hvt]
            simp
          rw [h1, h2, h3]
    · have hm : vMatchHere (c :: t) = vDigitHere (c :: t) := by
        show (if c == '[' then vDigitHere t else vDigitHere (c :: t)) = vDigitHere (c :: t)
        rw [if_neg (by simp [hc])]
      rw [hm]
      cases hvt : vDigitHere (c :: t) with
      | false =>
        rw [if_neg (by simp [hvt]), ih]
        show _ = (if vDigitHere (c :: t) then _ else firstVDigits t)
        rw [hvt]
        simp
      | true =>
        rw [if_pos rfl]
        have h1 : vCapture (c :: t) = digitsToNat (t.takeWhile Char.isDigit) := by
          show (if c == '[' then _ else digitsToNat (t.takeWhile Char.isDigit)) = _
          rw [if_neg (by simp [hc])]
        have h2 : firstVDigits (c :: t) = some (digitsToNat (t.takeWhile Char.isDigit)) := by
          show (if vDigitHere (c :: t) then some (digitsToNat (t.takeWhile Char.isDigit))
                else firstVDigits t) = _
          rw [hvt]
          simp
        rw [h1, h2]

/-- C1 (counterexample): the claim says a series with an empty inline patch
list is classified resolved; `_is_series_applied` returns `False` on an
empty list, so the classifier reports it as not applied, i.e. pending. -/
theorem c1_counterexample : ¬ (isSeriesApplied [] = true) := by decide

/-- C1 (amended): for every series whose inline patch list is empty, the
classifier reports the series as not applied, i.e. classifies it as pending
(the series is kept as still-live, not resolved). -/
theorem c1_empty_pending (patches : List InlinePatch) (h : patches = []) :
    isSeriesApplied patches = false := by
  subst h
  rfl

/-- C1 (witness): the amended statement at the empty list. -/
theorem c1_witness : isSeriesApplied [] = false := c1_empty_pending [] rfl

/-- C2 (counterexample): the claim says a `v`-plus-digits sequence inside an
ordinary word never determines the version, and such a title yields 1.  On
`"riscv2 cleanup"` the only `v`+digits occurrence is mid-word, yet the code
infers version 2 (the regex `\[?v(\d+)\]?` has no boundary guard), while the
boundary-guarded reading of the spec yields 1. -/
theorem c2_counterexample :
    inferVersion "riscv2 cleanup".toList = 2 ∧
      specInferVersion "riscv2 cleanup".toList = 1 := by decide

/-- C2 (amended): version inference returns the digits immediately following
the first case-insensitive `v` that is directly followed by a digit, anywhere
in the title — including inside ordinary words, with no boundary requirement
— and 1 when no such occurrence exists. -/
theorem c2_no_boundary (s : List Char) : inferVersion s = (firstVDigits s).getD 1 := by
  unfold inferVersion
  rw [reSearchV_eq_firstVDigits]

/-- C9: days-since-posting is computed after normalizing to UTC and a
timestamp without offset is assumed already UTC, so the same instant given
with an explicit UTC offset and without any offset yields the same day
count, for every evaluation instant. -/
theorem c9_tz_invariance (now w : Int) :
    daysSincePosting now ⟨w, some 0⟩ = daysSincePosting now ⟨w, none⟩ := by
  simp [daysSincePosting, assumeUTC]

/-- C3 (code evaluation at the failing input): the batch loop output is
identical under two generation backends that differ only in their usage
receipts (1000/100 tokens vs 0/0), so no batch-level token total reflecting
the receipts exists — `analyze_patchset` returns only the response text and
`analyze_bulk` never reads `response.usage`, although the repository's own
tests assert a `token_usage` dict and an aggregated token line. -/
theorem c3_code_evaluation :
    analyzeBulk (fun _ => [⟨1, "Test patch", "test"⟩])
        (fun _ => ⟨"Test analysis", 1000, 100⟩) [⟨1, "Test Series"⟩]
      = analyzeBulk (fun _ => [⟨1, "Test patch", "test"⟩])
        (fun _ => ⟨"Test analysis", 0, 0⟩) [⟨1, "Test Series"⟩]
    ∧ (1000 + 100 : Nat) ≠ 0 + 0 :=
  ⟨rfl, by decide⟩

/-- C4: for a series whose first patch title does not trigger the
pull-request rule, the classifier returns resolved exactly when strictly
more than half of the non-empty lifecycle states of the first three inline
patches are in the applied set (case-insensitive exact match), and pending
when no state information is available. -/
theorem c4_majority_rule (first : InlinePatch) (rest : List InlinePatch)
    (hpull : pullTitle first.name = false) :
    (((first :: rest).take 3).filterMap stateOf = [] →
       isSeriesApplied (first :: rest) = false) ∧
    (((first :: rest).take 3).filterMap stateOf ≠ [] →
       (isSeriesApplied (first :: rest) = true ↔
         2 * (((first :: rest).take 3).filterMap stateOf).countP
               (fun s => appliedStates.contains s)
           > (((first :: rest).take 3).filterMap stateOf).length)) := by
  have hred : isSeriesApplied (first :: rest)
      = (if (((first :: rest).take 3).filterMap stateOf).isEmpty then false
         else decide (2 * (((first :: rest).take 3).filterMap stateOf).countP
               (fun s => appliedStates.contains s)
             > (((first :: rest).take 3).filterMap stateOf).length)) := by
    show (if pullTitle first.name = true then true else _) = _
    rw [hpull]
    simp
  constructor
  · intro h
    rw [hred, h]
    rfl
  · intro h
    have hne : (((first :: rest).take 3).filterMap stateOf).isEmpty = false := by
      cases hq : ((first :: rest).take 3).filterMap stateOf with
      | nil => exact absurd hq h
      | cons a t => rfl
    rw [hred, hne]
    simp

/-- C4 (witness): three inline patches with states `Accepted`, `new`,
`accepted` — two of three applied, a strict majority — are classified
resolved. -/
theorem c4_witness :
    isSeriesApplied
      [⟨"rust: kernel: add device abstraction".toList, some "Accepted".toList⟩,
       ⟨"rust: kernel: two".toList, some "new".toList⟩,
       ⟨"rust: kernel: three".toList, some "accepted".toList⟩] = true :=
  ((c4_majority_rule _ _ (by decide)).2 (by decide)).mpr (by decide)

/-- Helper: closed form of the `analyze_bulk` fold from an arbitrary
accumulator. -/
theorem analyzeBulk_loop (fetch : SeriesRec → List CorePatch)
    (gen : SeriesRec × List CorePatch → ApiResponse) (ss : List SeriesRec)
    (acc : List (SeriesRec × String) × List (SeriesRec × String)) :
    ss.foldl (processSeriesBulk fetch gen) acc
      = (acc.1 ++ (ss.filter (fun s => !(fetch s).isEmpty)).map
            (fun s => (s, analyzePatchsetResult gen s (fetch s))),
         acc.2 ++ (ss.filter (fun s => (fetch s).isEmpty)).map
            (fun s => (s, "No patches available"))) := by
  induction ss generalizing acc with
  | nil => simp
  | cons s t ih =>
    rw [List.foldl_cons, ih]
    by_cases h : (fetch s).isEmpty <;>
      simp [processSeriesBulk, h, List.filter_cons]

/-- Helper: a Boolean filter and its negation split a list's length. -/
theorem filter_length_split {α : Type} (p : α → Bool) (l : List α) :
    (l.filter p).length + (l.filter (fun a => !p a)).length = l.length := by
  induction l with
  | nil => rfl
  | cons a t ih => by_cases h : p a <;> simp [List.filter_cons, h] <;> omega

/-- C8: in every batch, the failure list is exactly the zero-patch series in
order, each with reason `"No patches available"`; every other series yields
its analysis result; and with `K` zero-patch series among `N`, there are
exactly `K` failure entries and `N − K` results — no failure aborts the
remaining series. -/
theorem c8_batch_failures (fetch : SeriesRec → List CorePatch)
    (gen : SeriesRec × List CorePatch → ApiResponse) (ss : List SeriesRec) :
    (analyzeBulk fetch gen ss).2
        = (ss.filter (fun s => (fetch s).isEmpty)).map
            (fun s => (s, "No patches available")) ∧
    (analyzeBulk fetch gen ss).1
        = (ss.filter (fun s => !(fetch s).isEmpty)).map
            (fun s => (s, analyzePatchsetResult gen s (fetch s))) ∧
    (analyzeBulk fetch gen ss).2.length
        = (ss.filter (fun s => (fetch s).isEmpty)).length ∧
    (analyzeBulk fetch gen ss).1.length
        = ss.length - (ss.filter (fun s => (fetch s).isEmpty)).length := by
  have hloop := analyzeBulk_loop fetch gen ss ([], [])
  have hsplit := filter_length_split (fun s => (fetch s).isEmpty) ss
  unfold analyzeBulk
  rw [hloop]
  refine ⟨by simp, by simp, by simp, ?_⟩
  simp only [List.nil_append, List.length_map]
  omega

/-- Helper: the guarded append keeps the list duplicate-free. -/
theorem addName_nodup (name : List Char) (l : List (List Char)) (h : l.Nodup) :
    (addName name l).Nodup := by
  unfold addName
  split
  · exact h
  · rename_i hcond
    have hmem : name ∉ l := by
      intro hm
      exact hcond (by simp [hm])
    simp [List.nodup_append, h, hmem]

/-- Helper: one endorsement-scan step keeps all four lists duplicate-free. -/
theorem processLine_nodup (e : Endorsements) (line : List Char)
    (h : e.signed_off_by.Nodup ∧ e.acked_by.Nodup ∧ e.reviewed_by.Nodup ∧ e.tested_by.Nodup) :
    (processLine e line).signed_off_by.Nodup ∧ (processLine e line).acked_by.Nodup ∧
      (processLine e line).reviewed_by.Nodup ∧ (processLine e line).tested_by.Nodup := by
  obtain ⟨h1, h2, h3, h4⟩ := h
  unfold processLine
  dsimp only
  split
  · exact ⟨addName_nodup _ _ h1, h2, h3, h4⟩
  · split
    · exact ⟨h1, addName_nodup _ _ h2, h3, h4⟩
    · split
      · exact ⟨h1, h2, addName_nodup _ _ h3, h4⟩
      · split
        · exact ⟨h1, h2, h3, addName_nodup _ _ h4⟩
        · exact ⟨h1, h2, h3, h4⟩

/-- Helper: the line fold keeps all four lists duplicate-free. -/
theorem foldLines_nodup (lines : List (List Char)) (e : Endorsements)
    (h : e.signed_off_by.Nodup ∧ e.acked_by.Nodup ∧ e.reviewed_by.Nodup ∧ e.tested_by.Nodup) :
    (lines.foldl processLine e).signed_off_by.Nodup ∧
      (lines.foldl processLine e).acked_by.Nodup ∧
      (lines.foldl processLine e).reviewed_by.Nodup ∧
      (lines.foldl processLine e).tested_by.Nodup := by
  induction lines generalizing e with
  | nil => exact h
  | cons line t ih => exact ih _ (processLine_nodup e line h)

/-- Helper: `extractEndorsements` produces four duplicate-free lists. -/
theorem extractEndorsements_nodup (contents : List (List Char)) :
    (extractEndorsements contents).signed_off_by.Nodup ∧
      (extractEndorsements contents).acked_by.Nodup ∧
      (extractEndorsements contents).reviewed_by.Nodup ∧
      (extractEndorsements contents).tested_by.Nodup := by
  unfold extractEndorsements
  generalize hstart : emptyEndorsements = e0
  have h0 : e0.signed_off_by.Nodup ∧ e0.acked_by.Nodup ∧
      e0.reviewed_by.Nodup ∧ e0.tested_by.Nodup := by
    rw [← hstart]
    exact ⟨List.nodup_nil, List.nodup_nil, List.nodup_nil, List.nodup_nil⟩
  clear hstart
  induction contents generalizing e0 with
  | nil => exact h0
  | cons content t ih => exact ih _ (foldLines_nodup _ _ h0)

/-- C10: in the engagement XML, each of the four endorsement kinds renders a
count attribute equal to the size of the full deduplicated set, while the
body shows only the first 5 names in first-seen order; whenever a set has
more than 5 names, strictly fewer names are rendered than the rendered
count. -/
theorem c10_endorsement_render (patches : List CorePatch) :
    ((extractEndorsements (patches.map (fun p => p.content.toList))).signed_off_by.Nodup ∧
       countAttr (extractEndorsements (patches.map (fun p => p.content.toList))).signed_off_by
         = (extractEndorsements (patches.map (fun p => p.content.toList))).signed_off_by.length ∧
       shownNames (extractEndorsements (patches.map (fun p => p.content.toList))).signed_off_by
         = (extractEndorsements (patches.map (fun p => p.content.toList))).signed_off_by.take 5 ∧
       (5 < (extractEndorsements (patches.map (fun p => p.content.toList))).signed_off_by.length →
         (shownNames (extractEndorsements (patches.map (fun p => p.content.toList))).signed_off_by).length
           < countAttr (extractEndorsements (patches.map (fun p => p.content.toList))).signed_off_by)) ∧
    ((extractEndorsements (patches.map (fun p => p.content.toList))).acked_by.Nodup ∧
       countAttr (extractEndorsements (patches.map (fun p => p.content.toList))).acked_by
         = (extractEndorsements (patches.map (fun p => p.content.toList))).acked_by.length ∧
       shownNames (extractEndorsements (patches.map (fun p => p.content.toList))).acked_by
         = (extractEndorsements (patches.map (fun p => p.content.toList))).acked_by.take 5 ∧
       (5 < (extractEndorsements (patches.map (fun p => p.content.toList))).acked_by.length →
         (shownNames (extractEndorsements (patches.map (fun p => p.content.toList))).acked_by).length
           < countAttr (extractEndorsements (patches.map (fun p => p.content.toList))).acked_by)) ∧
    ((extractEndorsements (patches.map (fun p => p.content.toList))).reviewed_by.Nodup ∧
       countAttr (extractEndorsements (patches.map (fun p => p.content.toList))).reviewed_by
         = (extractEndorsements (patches.map (fun p => p.content.toList))).reviewed_by.length ∧
       shownNames (extractEndorsements (patches.map (fun p => p.content.toList))).reviewed_by
         = (extractEndorsements (patches.map (fun p => p.content.toList))).reviewed_by.take 5 ∧
       (5 < (extractEndorsements (patches.map (fun p => p.content.toList))).reviewed_by.length →
         (shownNames (extractEndorsements (patches.map (fun p => p.content.toList))).reviewed_by).length
           < countAttr (extractEndorsements (patches.map (fun p => p.content.toList))).reviewed_by)) ∧
    ((extractEndorsements (patches.map (fun p => p.content.toList))).tested_by.Nodup ∧
       countAttr (extractEndorsements (patches.map (fun p => p.content.toList))).tested_by
         = (extractEndorsements (patches.map (fun p => p.content.toList))).tested_by.length ∧
       shownNames (extractEndorsements (patches.map (fun p => p.content.toList))).tested_by
         = (extractEndorsements (patches.map (fun p => p.content.toList))).tested_by.take 5 ∧
       (5 < (extractEndorsements (patches.map (fun p => p.content.toList))).tested_by.length →
         (shownNames (extractEndorsements (patches.map (fun p => p.content.toList))).tested_by).length
           < countAttr (extractEndorsements (patches.map (fun p => p.content.toList))).tested_by)) := by
  obtain ⟨h1, h2, h3, h4⟩ := extractEndorsements_nodup (patches.map (fun p => p.content.toList))
  refine ⟨⟨h1, rfl, rfl, ?_⟩, ⟨h2, rfl, rfl, ?_⟩, ⟨h3, rfl, rfl, ?_⟩, ⟨h4, rfl, rfl, ?_⟩⟩ <;>
    · intro hlen
      simp only [shownNames, countAttr, List.length_take]
      omega

/-- C10 (witness): a patch whose content carries six distinct `Acked-by`
lines renders 5 names against a count attribute of 6. -/
theorem c10_witness :
    (shownNames (extractEndorsements
        ([(⟨1, "p", "Acked-by: a\nAcked-by: b\nAcked-by: c\nAcked-by: d\nAcked-by: e\nAcked-by: f"⟩ : CorePatch)].map
          (fun p => p.content.toList))).acked_by).length
      < countAttr (extractEndorsements
        ([(⟨1, "p", "Acked-by: a\nAcked-by: b\nAcked-by: c\nAcked-by: d\nAcked-by: e\nAcked-by: f"⟩ : CorePatch)].map
          (fun p => p.content.toList))).acked_by :=
  (c10_endorsement_render _).2.1.2.2.2 (by decide)

/-- Helper: a containment in the middle piece of a three-way split lifts to
the whole string. -/
theorem strContains_glue (pat mid s : String) (pre post : List Char)
    (hs : s.toList = pre ++ (mid.toList ++ post)) (h : strContains pat mid) :
    strContains pat s := by
  obtain ⟨a, b, hab⟩ := h
  refine ⟨pre ++ a, b ++ post, ?_⟩
  rw [hs, hab]
  simp

/-- Helper: every rendered comments block contains the `<comments>` tag. -/
theorem renderCommentsSec_has_tag (sec : CommentsSec) :
    strContains "<comments>" (renderCommentsSec sec) := by
  cases sec with
  | fetched cs =>
    refine ⟨"\n      ".toList,
      ("\n" ++ String.intercalate "\n" (cs.map commentXml) ++ "\n      </comments>").toList, ?_⟩
    show ("\n      <comments>\n" ++ String.intercalate "\n" (cs.map commentXml) ++
        "\n      </comments>").toList = _
    simp [String.toList, String.data_append]
  | noneFound =>
    exact ⟨"\n      ".toList,
      ("\n        " ++ noCommentsMarker ++ "\n      </comments>").toList, by decide⟩
  | notFetched =>
    exact ⟨"\n      ".toList,
      ("\n        " ++ notFetchedMarker ++ "\n      </comments>").toList, by decide⟩

/-- Helper: the not-fetched block carries its marker verbatim. -/
theorem renderCommentsSec_notFetched_marker :
    strContains notFetchedMarker (renderCommentsSec CommentsSec.notFetched) :=
  ⟨"\n      <comments>\n        ".toList, "\n      </comments>".toList, by decide⟩

/-- Helper: the no-comments block carries its marker verbatim. -/
theorem renderCommentsSec_noneFound_marker :
    strContains noCommentsMarker (renderCommentsSec CommentsSec.noneFound) :=
  ⟨"\n      <comments>\n        ".toList, "\n      </comments>".toList, by decide⟩

/-- Helper: a containment in the rendered comments block lifts to the whole
patch entry. -/
theorem strContains_patchEntry (pat : String) (i : Nat) (p : CorePatch)
    (maxChars : Nat) (sec : CommentsSec)
    (h : strContains pat (renderCommentsSec sec)) :
    strContains pat (patchEntry i p maxChars sec) := by
  refine strContains_glue pat (renderCommentsSec sec) _
    ("    <patch id=\"" ++ toString (i + 1) ++ "\" name=\"" ++ p.name ++
      "\">\n      <content>\n" ++ p.content.take maxChars ++ "\n      </content>").toList
    "\n    </patch>".toList ?_ h
  show ("    <patch id=\"" ++ toString (i + 1) ++ "\" name=\"" ++ p.name ++
      "\">\n      <content>\n" ++ p.content.take maxChars ++ "\n      </content>" ++
      renderCommentsSec sec ++ "\n    </patch>").toList = _
  simp [String.toList, String.data_append]

/-- C7: when discussion fetching is disabled, every patch entry gets the
not-fetched comments block (never the empty-comments one); when fetching is
enabled and a patch has zero comments, its entry gets the no-comments block;
the two markers are distinct strings; and every patch entry contains a
`<comments>` section, carrying the marker matching its block. -/
theorem c7_comment_markers (ic : Bool) (client : Option (Nat → List PwComment))
    (patches : List CorePatch) (maxPatches maxChars : Nat) :
    ((ic = false ∨ client = none) →
      ∀ p ∈ patches.take maxPatches,
        commentsSecFor ic client p.id = CommentsSec.notFetched) ∧
    (∀ f, client = some f → ic = true →
      ∀ p ∈ patches.take maxPatches, f p.id = [] →
        commentsSecFor ic client p.id = CommentsSec.noneFound) ∧
    (CommentsSec.notFetched ≠ CommentsSec.noneFound ∧
      noCommentsMarker ≠ notFetchedMarker) ∧
    (∀ pr ∈ (patches.take maxPatches).enum,
      strContains "<comments>"
          (patchEntry pr.1 pr.2 maxChars (commentsSecFor ic client pr.2.id)) ∧
      (commentsSecFor ic client pr.2.id = CommentsSec.notFetched →
        strContains notFetchedMarker
          (patchEntry pr.1 pr.2 maxChars (commentsSecFor ic client pr.2.id))) ∧
      (commentsSecFor ic client pr.2.id = CommentsSec.noneFound →
        strContains noCommentsMarker
          (patchEntry pr.1 pr.2 maxChars (commentsSecFor ic client pr.2.id)))) := by
  refine ⟨?_, ?_, ⟨by decide, by decide⟩, ?_⟩
  · rintro (hic | hcl) p _
    · subst hic
      cases client <;> rfl
    · subst hcl
      cases ic <;> rfl
  · rintro f rfl rfl p _ hempty
    show (if (f p.id).isEmpty then CommentsSec.noneFound
          else CommentsSec.fetched ((f p.id).take 3)) = _
    rw [hempty]
    rfl
  · rintro pr _
    refine ⟨strContains_patchEntry _ _ _ _ _ (renderCommentsSec_has_tag _), ?_, ?_⟩
    · intro hsec
      rw [hsec]
      exact strContains_patchEntry _ _ _ _ _ renderCommentsSec_notFetched_marker
    · intro hsec
      rw [hsec]
      exact strContains_patchEntry _ _ _ _ _ renderCommentsSec_noneFound_marker

/-- C7 (witness): with fetching disabled the single patch entry gets the
not-fetched block, and with fetching enabled but zero comments it gets the
no-comments block. -/
theorem c7_witness :
    commentsSecFor false none 3 = CommentsSec.notFetched ∧
    commentsSecFor true (some (fun _ => [])) 3 = CommentsSec.noneFound :=
  ⟨(c7_comment_markers false none [⟨3, "p", "c"⟩] 5 100).1 (Or.inl rfl)
      ⟨3, "p", "c"⟩ (by decide),
   (c7_comment_markers true (some (fun _ => [])) [⟨3, "p", "c"⟩] 5 100).2.1
      (fun _ => []) rfl rfl ⟨3, "p", "c"⟩ (by decide) rfl⟩

/-- Helper: folding aware comments into an aware accumulator tracks the
maximum instant, in traversal order. -/
theorem foldUpdate_aware (cs : List PwComment) (acc : PyDateTime)
    (hacc : acc.tz.isSome = true)
    (hcs : ∀ c ∈ cs, awareComment c = true) :
    (cs.foldl updateActivity acc).tz.isSome = true ∧
    instantOf (cs.foldl updateActivity acc)
      = (cs.filterMap (fun c => c.cdate.map instantOf)).foldl max (instantOf acc) := by
  induction cs generalizing acc with
  | nil => exact ⟨hacc, rfl⟩
  | cons c t ih =>
    have hc : awareComment c = true := hcs c (by simp)
    have ht : ∀ x ∈ t, awareComment x = true := fun x hx => hcs x (by simp [hx])
    cases hcd : c.cdate with
    | none =>
      have hstep : updateActivity acc c = acc := by simp [updateActivity, hcd]
      rw [List.foldl_cons, hstep, List.filterMap_cons, hcd]
      exact ih acc hacc ht
    | some d =>
      have hdz : d.tz.isSome = true := by
        have := hc
        unfold awareComment at this
        rw [hcd] at this
        exact this
      obtain ⟨zd, hzd⟩ := Option.isSome_iff_exists.mp hdz
      obtain ⟨za, hza⟩ := Option.isSome_iff_exists.mp hacc
      have hgt : dtGt d acc = some (decide (instantOf acc < instantOf d)) := by
        unfold dtGt
        rw [hzd, hza]
      by_cases hlt : instantOf acc < instantOf d
      · have hstep : updateActivity acc c = d := by
          simp only [updateActivity, hcd]
          rw [hgt]
          simp [hlt]
        rw [List.foldl_cons, hstep, List.filterMap_cons, hcd]
        obtain ⟨r1, r2⟩ := ih d hdz ht
        refine ⟨r1, ?_⟩
        rw [r2]
        simp [max_eq_right (le_of_lt hlt)]
      · have hstep : updateActivity acc c = acc := by
          simp only [updateActivity, hcd]
          rw [hgt]
          simp [hlt]
        rw [List.foldl_cons, hstep, List.filterMap_cons, hcd]
        obtain ⟨r1, r2⟩ := ih acc hacc ht
        refine ⟨r1, ?_⟩
        rw [r2]
        simp [max_eq_left (not_lt.mp hlt)]

/-- Helper: the activity loop over the inspected patches tracks the maximum
instant over all their comments. -/
theorem mraLoop_aware (f : Nat → List PwComment) (ps : List CorePatch)
    (acc : PyDateTime) (hacc : acc.tz.isSome = true)
    (hp : ∀ p ∈ ps, ∀ c ∈ f p.id, awareComment c = true) :
    (mraLoop f ps acc).tz.isSome = true ∧
    instantOf (mraLoop f ps acc)
      = ((ps.map (fun p => f p.id)).flatten.filterMap
            (fun c => c.cdate.map instantOf)).foldl max (instantOf acc) := by
  induction ps generalizing acc with
  | nil => exact ⟨hacc, rfl⟩
  | cons p t ih =>
    obtain ⟨h1, h2⟩ := foldUpdate_aware (f p.id) acc hacc (hp p (by simp))
    obtain ⟨h3, h4⟩ := ih ((f p.id).foldl updateActivity acc) h1
      (fun q hq => hp q (by simp [hq]))
    refine ⟨h3, ?_⟩
    rw [show mraLoop f (p :: t) acc
          = mraLoop f t ((f p.id).foldl updateActivity acc) from rfl]
    rw [h4, h2]
    simp [List.filterMap_append, List.foldl_append]

/-- Helper: with no comments to fold, the activity loop returns its start. -/
theorem mraLoop_empty (f : Nat → List PwComment) (ps : List CorePatch)
    (acc : PyDateTime) (h : ∀ p ∈ ps, f p.id = []) :
    mraLoop f ps acc = acc := by
  induction ps generalizing acc with
  | nil => rfl
  | cons p t ih =>
    rw [show mraLoop f (p :: t) acc
          = mraLoop f t ((f p.id).foldl updateActivity acc) from rfl]
    rw [h p (by simp)]
    exact ih acc (fun q hq => h q (by simp [hq]))

/-- Helper: floor division of a non-negative numerator by 86400 is Nat
(truncating) division. -/
theorem fdiv_ofNat_86400 (n : Nat) :
    Int.fdiv (Int.ofNat n) 86400 = Int.ofNat (n / 86400) := by
  cases n with
  | zero => rfl
  | succ m => rfl

/-- Helper: folding aware comments into a naive accumulator changes nothing:
each comparison is a naive-aware `TypeError`, swallowed by the `except`. -/
theorem foldUpdate_naive (cs : List PwComment) (acc : PyDateTime)
    (hacc : acc.tz = none) :
    (∀ c ∈ cs, awareComment c = true) → cs.foldl updateActivity acc = acc := by
  induction cs with
  | nil => intro _; rfl
  | cons c t ih =>
    intro hcs
    have hc : awareComment c = true := hcs c (by simp)
    have hstep : updateActivity acc c = acc := by
      cases hcd : c.cdate with
      | none => simp [updateActivity, hcd]
      | some d =>
        have hdz : d.tz.isSome = true := by
          have := hc
          unfold awareComment at this
          rw [hcd] at this
          exact this
        obtain ⟨zd, hzd⟩ := Option.isSome_iff_exists.mp hdz
        have hgt : dtGt d acc = none := by
          unfold dtGt
          rw [hzd, hacc]
        simp only [updateActivity, hcd]
        rw [hgt]
    rw [List.foldl_cons, hstep]
    exact ih (fun x hx => hcs x (by simp [hx]))

/-- Helper: with a naive series date and aware comment dates, the activity
loop never updates: `most_recent_activity` stays the series date. -/
theorem mraLoop_naive (f : Nat → List PwComment) (ps : List CorePatch)
    (acc : PyDateTime) (hacc : acc.tz = none) :
    (∀ p ∈ ps, ∀ c ∈ f p.id, awareComment c = true) → mraLoop f ps acc = acc := by
  induction ps with
  | nil => intro _; rfl
  | cons p t ih =>
    intro hp
    rw [show mraLoop f (p :: t) acc
          = mraLoop f t ((f p.id).foldl updateActivity acc) from rfl]
    rw [foldUpdate_naive (f p.id) acc hacc (hp p (by simp))]
    exact ih (fun q hq => hp q (by simp [hq]))

/-- C5 (counterexample): tracing the production shape — `get_recent_series`
strips the offset from the series date (lines 144-145), while comment dates
parse offset-aware — a series posted at instant 0 (naive) with one comment
at instant 432000, evaluated at instant 864000, yields 10 days since last
activity (every comparison raises a `TypeError` the `except` swallows), while
the claim requires the truncated difference against the later of the two
timestamps, 5 days. -/
theorem c5_counterexample :
    daysSinceLastActivity 864000 ⟨0, none⟩ true
        (some (fun _ => [⟨"R", "2025-05-02", "ok", some ⟨432000, some 0⟩⟩]))
        [⟨1, "p", "c"⟩] 5
      = 10 ∧
    pyDays (864000 - latestInstant ⟨0, none⟩
        (fun _ => [⟨"R", "2025-05-02", "ok", some ⟨432000, some 0⟩⟩])
        [⟨1, "p", "c"⟩] 5)
      = 5 ∧
    (10 : Int) ≠ 5 := by decide

/-- C5 (amended): when the series submission timestamp carries an explicit
offset and every parsed comment date does too, days-since-last-activity is
the whole-day difference (floor; truncating Nat division once non-negative)
between the evaluation instant and the later of the submission instant and
the latest comment instant across the inspected patches; when the submission
timestamp is offset-naive — the shape `get_recent_series` hands the analyzer
— every comment comparison is a swallowed `TypeError` and the value equals
days-since-posting regardless of comments; with no comments, or with comment
fetching disabled, it also equals days-since-posting. -/
theorem c5_amended (now : Int) (sd : PyDateTime) (f : Nat → List PwComment)
    (patches : List CorePatch) (maxP : Nat)
    (hall : ∀ p ∈ patches.take maxP, ∀ c ∈ f p.id, awareComment c = true) :
    (sd.tz.isSome = true →
      daysSinceLastActivity now sd true (some f) patches maxP
        = pyDays (now - latestInstant sd f patches maxP)) ∧
    (sd.tz.isSome = true → 0 ≤ now - latestInstant sd f patches maxP →
      daysSinceLastActivity now sd true (some f) patches maxP
        = Int.ofNat ((now - latestInstant sd f patches maxP).toNat / 86400)) ∧
    (sd.tz = none →
      daysSinceLastActivity now sd true (some f) patches maxP
        = daysSincePosting now sd) ∧
    ((∀ p ∈ patches.take maxP, f p.id = []) →
      daysSinceLastActivity now sd true (some f) patches maxP
        = daysSincePosting now sd) ∧
    (∀ client, daysSinceLastActivity now sd false client patches maxP
        = daysSincePosting now sd) := by
  have hmra : mostRecentActivity sd true (some f) patches maxP
      = mraLoop f (patches.take maxP) sd := rfl
  have hmain : sd.tz.isSome = true →
      daysSinceLastActivity now sd true (some f) patches maxP
        = pyDays (now - latestInstant sd f patches maxP) := by
    intro hsd
    obtain ⟨h1, h2⟩ := mraLoop_aware f (patches.take maxP) sd hsd hall
    have hinst : assumeUTC (mraLoop f (patches.take maxP) sd)
        = instantOf (mraLoop f (patches.take maxP) sd) := by
      obtain ⟨z, hz⟩ := Option.isSome_iff_exists.mp h1
      simp [assumeUTC, instantOf, hz]
    unfold daysSinceLastActivity
    rw [hmra, hinst, h2]
    rfl
  refine ⟨hmain, ?_, ?_, ?_, ?_⟩
  · intro hsd hnn
    rw [hmain hsd]
    unfold pyDays
    rw [show now - latestInstant sd f patches maxP
          = Int.ofNat (now - latestInstant sd f patches maxP).toNat
        from (Int.toNat_of_nonneg hnn).symm]
    rw [fdiv_ofNat_86400]
    simp
  · intro hnone
    unfold daysSinceLastActivity daysSincePosting
    rw [hmra, mraLoop_naive f (patches.take maxP) sd hnone hall]
  · intro hfp
    unfold daysSinceLastActivity daysSincePosting
    rw [hmra, mraLoop_empty f (patches.take maxP) sd hfp]
  · intro client
    unfold daysSinceLastActivity daysSincePosting mostRecentActivity
    cases client <;> rfl

/-- C5 (witness): the amended statement at concrete inputs — an aware series
at instant 0 with one comment at instant 432000 gives 5 days at evaluation
instant 864000, and the same data with a naive series date collapses to
days-since-posting. -/
theorem c5_witness :
    daysSinceLastActivity 864000 ⟨0, some 0⟩ true
        (some (fun _ => [⟨"R", "2025-05-02", "ok", some ⟨432000, some 0⟩⟩]))
        [⟨1, "p", "c"⟩] 5
      = 5 ∧
    daysSinceLastActivity 864000 ⟨0, none⟩ true
        (some (fun _ => [⟨"R", "2025-05-02", "ok", some ⟨432000, some 0⟩⟩]))
        [⟨1, "p", "c"⟩] 5
      = daysSincePosting 864000 ⟨0, none⟩ := by
  constructor
  · have h := (c5_amended 864000 ⟨0, some 0⟩
        (fun _ => [⟨"R", "2025-05-02", "ok", some ⟨432000, some 0⟩⟩])
        [⟨1, "p", "c"⟩] 5 (by decide)).1 rfl
    rw [h]
    decide
  · exact (c5_amended 864000 ⟨0, none⟩
        (fun _ => [⟨"R", "2025-05-02", "ok", some ⟨432000, some 0⟩⟩])
        [⟨1, "p", "c"⟩] 5 (by decide)).2.2.1 rfl


/-- Helper: `findMarker` returns the leftmost match position of `<[^>]+>`:
a match starts there and at no earlier position. -/
theorem findMarker_spec (s : List Char) (q : Nat) (h : findMarker s = some q) :
    markerHere (s.drop q) = true ∧ ∀ j, j < q → markerHere (s.drop j) = false := by
  induction s generalizing q with
  | nil => simp [findMarker] at h
  | cons c t ih =>
    rw [show findMarker (c :: t)
          = (if markerHere (c :: t) then some 0 else (findMarker t).map (· + 1))
        from rfl] at h
    by_cases hm : markerHere (c :: t)
    · rw [if_pos hm] at h
      have hq0 : q = 0 := by
        have := h
        simp at this
        omega
      subst hq0
      exact ⟨hm, fun j hj => absurd hj (by omega)⟩
    · rw [if_neg hm] at h
      cases hft : findMarker t with
      | none => rw [hft] at h; simp at h
      | some q0 =>
        rw [hft] at h
        simp at h
        obtain ⟨m1, m2⟩ := ih q0 hft
        constructor
        · rw [← h]
          simpa using m1
        · intro j hj
          cases j with
          | zero =>
            simpa using (by simpa using hm : markerHere (c :: t) = false)
          | succ j0 =>
            have : j0 < q0 := by omega
            simpa using m2 j0 this

/-- Helper: a position where `<[^>]+>` matches carries at least 3
characters. -/
theorem markerHere_length (v : List Char) (h : markerHere v = true) : 3 ≤ v.length := by
  match v with
  | [] => simp [markerHere] at h
  | [a] => simp [markerHere] at h
  | a :: c :: t =>
    have ht : t ≠ [] := by
      intro hnil
      subst hnil
      simp [markerHere] at h
    cases t with
    | nil => exact absurd rfl ht
    | cons x u => simp

/-- Helper: a match of `<[^>]+>` survives appending on the right. -/
theorem markerHere_append (v w : List Char) (h : markerHere v = true) :
    markerHere (v ++ w) = true := by
  match v with
  | [] => simp [markerHere] at h
  | [a] => simp [markerHere] at h
  | a :: c :: t =>
    simp only [markerHere, Bool.and_eq_true] at h
    show markerHere (a :: c :: (t ++ w)) = true
    simp only [markerHere, Bool.and_eq_true]
    refine ⟨⟨h.1.1, h.1.2⟩, ?_⟩
    have : ('>' : Char) ∈ t := by
      have := h.2
      simpa using this
    simpa using List.mem_append.mpr (Or.inl this)

/-- Helper: a match of `<[^>]+>` inside a prefix survives in the full
list. -/
theorem markerHere_take (u : List Char) (m : Nat) (h : markerHere (u.take m) = true) :
    markerHere u = true := by
  have := markerHere_append (u.take m) (u.drop m) h
  rwa [List.take_append_drop] at this

/-- Helper: `str.strip` returns a contiguous slice of its argument. -/
theorem pyStrip_decomp (s : List Char) :
    ∃ pre post, s = pre ++ (pyStrip s ++ post) := by
  refine ⟨s.takeWhile isPySpace,
    ((s.dropWhile isPySpace).reverse.takeWhile isPySpace).reverse, ?_⟩
  have h3 : (s.dropWhile isPySpace).reverse
      = (s.dropWhile isPySpace).reverse.takeWhile isPySpace
        ++ (s.dropWhile isPySpace).reverse.dropWhile isPySpace :=
    (List.takeWhile_append_dropWhile isPySpace _).symm
  have h4 := congrArg List.reverse h3
  rw [List.reverse_reverse, List.reverse_append] at h4
  have h2 : s.dropWhile isPySpace
      = pyStrip s ++ ((s.dropWhile isPySpace).reverse.takeWhile isPySpace).reverse := by
    show s.dropWhile isPySpace
        = stripRight (stripLeft s)
          ++ ((s.dropWhile isPySpace).reverse.takeWhile isPySpace).reverse
    unfold stripRight stripLeft
    exact h4
  conv_lhs => rw [← List.takeWhile_append_dropWhile (p := isPySpace) (l := s)]
  conv_lhs => rw [h2]

/-- Helper: no match of `<[^>]+>` survives in the stripped prefix cut at the
leftmost match position. -/
theorem noMarker_pyStrip_take (namePart : List Char) (q : Nat)
    (hq : findMarker namePart = some q) (j : Nat) :
    markerHere ((pyStrip (namePart.take q)).drop j) = false := by
  by_contra hcon
  obtain ⟨hq1, hq2⟩ := findMarker_spec namePart q hq
  set r := pyStrip (namePart.take q) with hr
  have hmk : markerHere (r.drop j) = true := by
    cases hb : markerHere (r.drop j) with
    | false => exact absurd hb hcon
    | true => rfl
  obtain ⟨pre, post, hdec⟩ := pyStrip_decomp (namePart.take q)
  rw [← hr] at hdec
  have hdec2 : namePart.take q
      = (pre ++ r.take j) ++ (r.drop j ++ post) := by
    rw [hdec]
    conv_lhs => rw [show r = r.take j ++ r.drop j from (List.take_append_drop j r).symm]
    simp only [List.append_assoc]
  have hdropi : (namePart.take q).drop (pre ++ r.take j).length
      = r.drop j ++ post := by
    conv_lhs => rw [hdec2]
    exact List.drop_left _ _
  have hmark_take :
      markerHere ((namePart.take q).drop (pre ++ r.take j).length) = true := by
    rw [hdropi]
    exact markerHere_append _ _ hmk
  have hlen3 : 3 ≤ (r.drop j).length := markerHere_length _ hmk
  have hlenq : (namePart.take q).length ≤ q := by simp
  have hiq : (pre ++ r.take j).length < q := by
    have hltot := congrArg List.length hdec2
    simp only [List.length_append] at hltot ⊢
    omega
  have hmark_full :
      markerHere (namePart.drop (pre ++ r.take j).length) = true := by
    rw [List.drop_take] at hmark_take
    exact markerHere_take _ _ hmark_take
  have hz := hq2 _ hiq
  rw [hz] at hmark_full
  exact absurd hmark_full (by simp)

/-- C6: the extracted display name is the substring after the first colon,
trimmed; when the field contains an angle-bracket email marker, everything
from the leftmost marker onward is excluded and the extracted name contains
no marker occurrence (regardless of intervening whitespace); a line without
a colon extracts the empty name, and an empty extracted name yields no
endorsement entry and never raises. -/
theorem c6_extract_name (line : List Char) :
    (findColon line = none → pyExtractName line = []) ∧
    (∀ i, findColon line = some i →
      (findMarker (pyStrip (line.drop (i + 1))) = none →
         pyExtractName line = pyStrip (line.drop (i + 1))) ∧
      (∀ q, findMarker (pyStrip (line.drop (i + 1))) = some q →
         pyExtractName line = pyStrip ((pyStrip (line.drop (i + 1))).take q) ∧
         markerHere ((pyStrip (line.drop (i + 1))).drop q) = true ∧
         ∀ j, markerHere ((pyExtractName line).drop j) = false)) ∧
    (∀ e : Endorsements, pyExtractName (pyStrip line) = [] → processLine e line = e) := by
  refine ⟨?_, ?_, ?_⟩
  · intro h
    unfold pyExtractName
    rw [h]
  · intro i hi
    constructor
    · intro hm
      unfold pyExtractName
      rw [hi]
      dsimp only
      rw [hm]
    · intro q hq
      have hx : pyExtractName line = pyStrip ((pyStrip (line.drop (i + 1))).take q) := by
        unfold pyExtractName
        rw [hi]
        dsimp only
        rw [hq]
      refine ⟨hx, (findMarker_spec _ _ hq).1, ?_⟩
      intro j
      rw [hx]
      exact noMarker_pyStrip_take _ _ hq j
  · intro e hext
    have haddn : ∀ l, addName (pyExtractName (pyStrip line)) l = l := by
      intro l
      unfold addName
      rw [hext]
      simp
    unfold processLine
    dsimp only
    split
    · rw [haddn]
    · split
      · rw [haddn]
      · split
        · rw [haddn]
        · split
          · rw [haddn]
          · rfl

/-- C6 (witness): the theorem applied to
`"Acked-by: Jane Smith<jane@kernel.org>"` — no space before the marker —
extracts exactly `"Jane Smith"`. -/
theorem c6_witness :
    pyExtractName "Acked-by: Jane Smith<jane@kernel.org>".toList = "Jane Smith".toList := by
  have h := (((c6_extract_name "Acked-by: Jane Smith<jane@kernel.org>".toList).2.1
      8 (by decide)).2 10 (by decide)).1
  rw [h]
  decide
